import Mathlib

/-!
Verification of the tiny-ts-typechecker dialects.

Shallow embedding of the repository's type checkers:
* `typecheckA` / `typecheck2A` — src/arith.ts `typecheck` / `typecheck2`
* `typecheckB` — src/basic.ts `typecheck` (the variant with `seq2`/`const2`)
* `typecheckR` — the recursive-functions dialect `typecheck` (src/unnamed/part_004)
* `typecheckS`, `isEqualType`, `isSubtypeOf` — the structural-subtyping dialect
  (src/unnamed/part_000)

JavaScript objects used as type environments are modelled as association
lists with unique keys in insertion order: `insertEnv` mirrors
`obj[k] = v` / `{...obj, k: v}` (replace the value in place if the key is
present, append otherwise), and `lookupEnv` mirrors `obj[k]`.
In-place mutation of an environment that is shared by reference is modelled
by state passing: `typecheckB` returns, next to its result, the contents of
the caller's environment object after the call.
-/

/-- `obj[k]` on a JS object modelled as an assoc list with unique keys. -/
def lookupEnv {α : Type} (env : List (String × α)) (k : String) : Option α :=
  (env.find? (fun p => p.1 == k)).map (fun p => p.2)

/-- `obj[k] = v` / `{...obj, k: v}`: replace in place if present, else append. -/
def insertEnv {α : Type} : List (String × α) → String → α → List (String × α)
  | [], k, v => [(k, v)]
  | (k0, v0) :: rest, k, v =>
    if k0 == k then (k0, v) :: rest else (k0, v0) :: insertEnv rest k v

/-- `{...env, ...Object.fromEntries(params)}`: insert the pairs in order. -/
def insertAll {α : Type} (env : List (String × α)) (ps : List (String × α)) :
    List (String × α) :=
  ps.foldl (fun e p => insertEnv e p.1 p.2) env

/-! ## Arithmetic dialect (src/arith.ts) -/

/-- `Type` of src/arith.ts: `Boolean | Number`. -/
inductive TyA where
  | boolean
  | number
deriving DecidableEq, Repr

/-- `Term` of src/arith.ts. -/
inductive TermA where
  | tru
  | fls
  | ifT (cond thn els : TermA)
  | num (n : Int)
  | add (left right : TermA)
deriving DecidableEq, Repr

/-- `typecheck` of src/arith.ts; a thrown string becomes `.error`. -/
def typecheckA : TermA → Except String TyA
  | .tru => .ok .boolean
  | .fls => .ok .boolean
  | .ifT c t e =>
    match typecheckA c with
    | .error msg => .error msg
    | .ok condTy =>
      if condTy = .boolean then
        match typecheckA t with
        | .error msg => .error msg
        | .ok thnTy =>
          match typecheckA e with
          | .error msg => .error msg
          | .ok elsTy =>
            if thnTy = elsTy then .ok thnTy
            else .error "branches must have the same type"
      else .error "boolean expected"
  | .num _ => .ok .number
  | .add l r =>
    match typecheckA l with
    | .error msg => .error msg
    | .ok leftTy =>
      if leftTy = .number then
        match typecheckA r with
        | .error msg => .error msg
        | .ok rightTy =>
          if rightTy = .number then .ok .number
          else .error "number expected on right side of `+`"
      else .error "number expected on left side of `+`"

/-- `typecheck2` of src/arith.ts: in the `if` case it calls `typecheck` on the
condition and discards the result without testing its tag; its other recursive
calls are also to `typecheck` (not to itself), exactly as in the source. -/
def typecheck2A : TermA → Except String TyA
  | .tru => .ok .boolean
  | .fls => .ok .boolean
  | .ifT c t e =>
    match typecheckA c with
    | .error msg => .error msg
    | .ok _ =>
      match typecheckA t with
      | .error msg => .error msg
      | .ok thnTy =>
        match typecheckA e with
        | .error msg => .error msg
        | .ok elsTy =>
          if thnTy = elsTy then .ok thnTy
          else .error "branches must have the same type"
  | .num _ => .ok .number
  | .add l r =>
    match typecheckA l with
    | .error msg => .error msg
    | .ok leftTy =>
      if leftTy = .number then
        match typecheckA r with
        | .error msg => .error msg
        | .ok rightTy =>
          if rightTy = .number then .ok .number
          else .error "number expected on right side of `+`"
      else .error "number expected on left side of `+`"

/-! ## Bindings-and-functions dialect (src/basic.ts)

`Type` is `Boolean | Number | Func(params, retType)`; identical in
src/basic.ts and in the recursive-functions dialect, so `TyF` and `typeEq`
serve both. -/

/-- `Type` of src/basic.ts (and of the recursive-functions dialect). -/
inductive TyF where
  | boolean
  | number
  | func (params : List (String × TyF)) (retType : TyF)

/-- `a.tag === b.tag` on `TyF`. -/
def TyF.tagEq : TyF → TyF → Bool
  | .boolean, .boolean => true
  | .number, .number => true
  | .func _ _, .func _ _ => true
  | _, _ => false

mutual
/-- `typeEq` of src/basic.ts: switch on `b`; for `Func`, same parameter count,
parameter types pairwise equal (names ignored), return types equal; for the
other tags, `a.tag === b.tag`. -/
def typeEq : TyF → TyF → Bool
  | .func aps aret, .func bps bret =>
    aps.length == bps.length && typeEqParams aps bps && typeEq aret bret
  | a, .func _ _ => a.tagEq (.func [] .number) && false
  | a, b => a.tagEq b

/-- `a.params.every((p, i) => typeEq(p.type, ensure(b.params[i]).type))`,
run only under the equal-length guard; the impossible short-list case is
`false`. -/
def typeEqParams : List (String × TyF) → List (String × TyF) → Bool
  | [], _ => true
  | _ :: _, [] => false
  | p :: ps, q :: qs => typeEq p.2 q.2 && typeEqParams ps qs
end

/-- `Term` of src/basic.ts, including the `seq2`/`const2` variants. -/
inductive TermB where
  | tru
  | fls
  | ifT (cond thn els : TermB)
  | num (n : Int)
  | add (left right : TermB)
  | var (name : String)
  | func (params : List (String × TyF)) (body : TermB)
  | call (func : TermB) (args : List TermB)
  | seq (body rest : TermB)
  | constT (name : String) (init : TermB) (rest : TermB)
  | seq2 (body : List TermB)
  | const2 (name : String) (init : TermB)

/-- A type environment: a JS object mapping names to types. -/
abbrev TypeEnvB := List (String × TyF)

mutual
/-- `typecheck` of src/basic.ts. The second component of the result is the
content of the environment object the caller passed in, after the call —
this captures the in-place assignment `tyEnv[term.name] = initTy` performed
by the `seq2` case; every other case leaves the caller's object untouched
(the `func` and `const` cases check the body/rest inside a fresh spread
copy, so writes there never reach the caller's object). -/
def typecheckB : TermB → TypeEnvB → Except String TyF × TypeEnvB
  | .tru, env => (.ok .boolean, env)
  | .fls, env => (.ok .boolean, env)
  | .ifT c t e, env =>
    match typecheckB c env with
    | (.error msg, env1) => (.error msg, env1)
    | (.ok condTy, env1) =>
      if condTy.tagEq .boolean then
        match typecheckB t env1 with
        | (.error msg, env2) => (.error msg, env2)
        | (.ok thnTy, env2) =>
          match typecheckB e env2 with
          | (.error msg, env3) => (.error msg, env3)
          | (.ok elsTy, env3) =>
            if typeEq thnTy elsTy then (.ok thnTy, env3)
            else (.error "branches must have the same type", env3)
      else (.error "boolean expected", env1)
  | .num _, env => (.ok .number, env)
  | .add l r, env =>
    match typecheckB l env with
    | (.error msg, env1) => (.error msg, env1)
    | (.ok leftTy, env1) =>
      if leftTy.tagEq .number then
        match typecheckB r env1 with
        | (.error msg, env2) => (.error msg, env2)
        | (.ok rightTy, env2) =>
          if rightTy.tagEq .number then (.ok .number, env2)
          else (.error "number expected on right side of `+`", env2)
      else (.error "number expected on left side of `+`", env1)
  | .var n, env =>
    match lookupEnv env n with
    | none => (.error ("unknown variable: " ++ n), env)
    | some ty => (.ok ty, env)
  | .func ps body, env =>
    match typecheckB body (insertAll env ps) with
    | (.error msg, _) => (.error msg, env)
    | (.ok retType, _) => (.ok (.func ps retType), env)
  | .call f args, env =>
    match typecheckB f env with
    | (.error msg, env1) => (.error msg, env1)
    | (.ok funcTy, env1) =>
      match funcTy with
      | .func ps retTy =>
        if ps.length == args.length then
          match typecheckArgsB args ps env1 with
          | (.error msg, env2) => (.error msg, env2)
          | (.ok _, env2) => (.ok retTy, env2)
        else (.error "wrong number of arguments", env1)
      | _ => (.error "function expected", env1)
  | .seq b r, env =>
    match typecheckB b env with
    | (.error msg, env1) => (.error msg, env1)
    | (.ok _, env1) => typecheckB r env1
  | .constT n init rest, env =>
    match typecheckB init env with
    | (.error msg, env1) => (.error msg, env1)
    | (.ok initTy, env1) =>
      match typecheckB rest (insertEnv env1 n initTy) with
      | (.error msg, _) => (.error msg, env1)
      | (.ok ty, _) => (.ok ty, env1)
  | .seq2 body, env => typecheckSeq2B body none env
  | .const2 _ _, env => (.error "const2 must not be reached", env)

/-- The argument loop of the `call` case: typecheck each argument left to
right, requiring `typeEq` with the positional parameter type. The
short-parameter-list case is `ensure`'s throw; it is unreachable under the
arity guard. -/
def typecheckArgsB : List TermB → List (String × TyF) → TypeEnvB →
    Except String Unit × TypeEnvB
  | [], _, env => (.ok (), env)
  | _ :: _, [], env => (.error "value should exists", env)
  | a :: as, p :: ps, env =>
    match typecheckB a env with
    | (.error msg, env1) => (.error msg, env1)
    | (.ok argTy, env1) =>
      if typeEq argTy p.2 then typecheckArgsB as ps env1
      else (.error "parameter type mismatch", env1)

/-- The `seq2` loop of src/basic.ts: a `const2` entry typechecks its
initializer and then assigns the binding into the caller's environment
object in place (`tyEnv[term.name] = initTy`); any other entry is
typechecked as usual; the last type produced is returned, and an empty
sequence is an error. -/
def typecheckSeq2B : List TermB → Option TyF → TypeEnvB →
    Except String TyF × TypeEnvB
  | [], none, env => (.error "empty sequence", env)
  | [], some ty, env => (.ok ty, env)
  | .const2 n init :: rest, _, env =>
    match typecheckB init env with
    | (.error msg, env1) => (.error msg, env1)
    | (.ok initTy, env1) => typecheckSeq2B rest (some initTy) (insertEnv env1 n initTy)
  | tm :: rest, _, env =>
    match typecheckB tm env with
    | (.error msg, env1) => (.error msg, env1)
    | (.ok ty, env1) => typecheckSeq2B rest (some ty) env1
end

mutual
/-- Terms whose check can never write into the caller's environment
object: a `seq2` block containing a `const2` entry assigns into the
environment it was handed, so it is excluded wherever the caller's object
is passed through (`if`/`add`/`call`/`seq` subterms, a `const` initializer,
non-`const2` entries of a `seq2`). A `func` body and a `const` rest are
always checked inside a fresh spread copy, so whatever they contain never
reaches the caller's object; a bare `const2` throws before touching
anything. -/
def envSafeB : TermB → Bool
  | .tru => true
  | .fls => true
  | .ifT c t e => envSafeB c && envSafeB t && envSafeB e
  | .num _ => true
  | .add l r => envSafeB l && envSafeB r
  | .var _ => true
  | .func _ _ => true
  | .call f args => envSafeB f && envSafeBList args
  | .seq b r => envSafeB b && envSafeB r
  | .constT _ init _ => envSafeB init
  | .seq2 body => envSafeBSeq body
  | .const2 _ _ => true

/-- `envSafeB` on every element. -/
def envSafeBList : List TermB → Bool
  | [] => true
  | t :: ts => envSafeB t && envSafeBList ts

/-- A `seq2` block is safe when it has no `const2` entry and each entry is
itself safe. -/
def envSafeBSeq : List TermB → Bool
  | [] => true
  | .const2 _ _ :: _ => false
  | t :: ts => envSafeB t && envSafeBSeq ts
end

/-! ## Recursive-functions dialect (src/unnamed/part_004)

Same `Type` as src/basic.ts (`TyF`); its `typeEq` is the same function.
`typecheck` gains an optional parent-term parameter `p`, passed only by the
`const` case (with the whole `const` term), and `func` gains an optional
return-type annotation. -/

/-- `Term` of the recursive-functions dialect. -/
inductive TermR where
  | tru
  | fls
  | ifT (cond thn els : TermR)
  | num (n : Int)
  | add (left right : TermR)
  | var (name : String)
  | func (params : List (String × TyF)) (retType : Option TyF) (body : TermR)
  | recFunc (funcName : String) (params : List (String × TyF)) (retType : TyF)
      (body : TermR) (rest : TermR)
  | call (func : TermR) (args : List TermR)
  | seq (body rest : TermR)
  | constT (name : String) (init : TermR) (rest : TermR)

/-- The scope the `func` case of the recursive-functions dialect checks its
body in: the environment extended with the parameters
(`{...tyEnv, ...Object.fromEntries(params)}`), and — when the function
carries a return-type annotation and the parent term is a `const` — with the
`const`'s name bound to `Func(params, retType)`
(`tyScope[p.name] = selfTy`, overwriting any parameter of that name). -/
def funcScope (env : TypeEnvB) (ps : List (String × TyF)) (retType : Option TyF)
    (parent : Option TermR) : TypeEnvB :=
  match retType, parent with
  | some rT, some (.constT n _ _) => insertEnv (insertAll env ps) n (.func ps rT)
  | _, _ => insertAll env ps

/-- The scope the `recFunc` case checks its body in:
`{...tyEnv, ...Object.fromEntries(params), [funcName]: selfType}` — the
self binding is written last, overwriting any parameter of the same name. -/
def recFuncScope (env : TypeEnvB) (ps : List (String × TyF)) (f : String)
    (rT : TyF) : TypeEnvB :=
  insertEnv (insertAll env ps) f (.func ps rT)

mutual
/-- `typecheck` of the recursive-functions dialect (src/unnamed/part_004),
with its optional parent-term argument `p`. -/
def typecheckR : TermR → TypeEnvB → Option TermR → Except String TyF
  | .tru, _, _ => .ok .boolean
  | .fls, _, _ => .ok .boolean
  | .ifT c t e, env, _ =>
    match typecheckR c env none with
    | .error msg => .error msg
    | .ok condTy =>
      if condTy.tagEq .boolean then
        match typecheckR t env none with
        | .error msg => .error msg
        | .ok thnTy =>
          match typecheckR e env none with
          | .error msg => .error msg
          | .ok elsTy =>
            if typeEq thnTy elsTy then .ok thnTy
            else .error "branches must have the same type"
      else .error "boolean expected"
  | .num _, _, _ => .ok .number
  | .add l r, env, _ =>
    match typecheckR l env none with
    | .error msg => .error msg
    | .ok leftTy =>
      if leftTy.tagEq .number then
        match typecheckR r env none with
        | .error msg => .error msg
        | .ok rightTy =>
          if rightTy.tagEq .number then .ok .number
          else .error "number expected on right side of `+`"
      else .error "number expected on left side of `+`"
  | .var n, env, _ =>
    match lookupEnv env n with
    | none => .error ("unknown variable: " ++ n)
    | some ty => .ok ty
  | .func ps rT body, env, parent =>
    match typecheckR body (funcScope env ps rT parent) none with
    | .error msg => .error msg
    | .ok retType =>
      match rT with
      | some declared =>
        if typeEq declared retType then .ok (.func ps retType)
        else .error "return type mismatch"
      | none => .ok (.func ps retType)
  | .recFunc f ps rT body rest, env, _ =>
    match typecheckR body (recFuncScope env ps f rT) none with
    | .error msg => .error msg
    | .ok retType =>
      if typeEq rT retType then typecheckR rest (insertEnv env f (.func ps rT)) none
      else .error "return type mismatch"
  | .call f args, env, _ =>
    match typecheckR f env none with
    | .error msg => .error msg
    | .ok funcTy =>
      match funcTy with
      | .func ps retTy =>
        if ps.length == args.length then
          match typecheckArgsR args ps env with
          | .error msg => .error msg
          | .ok _ => .ok retTy
        else .error "wrong number of arguments"
      | _ => .error "function expected"
  | .seq b r, env, _ =>
    match typecheckR b env none with
    | .error msg => .error msg
    | .ok _ => typecheckR r env none
  | .constT n init rest, env, _ =>
    match typecheckR init env (some (.constT n init rest)) with
    | .error msg => .error msg
    | .ok initTy => typecheckR rest (insertEnv env n initTy) none

/-- The argument loop of the dialect's `call` case. -/
def typecheckArgsR : List TermR → List (String × TyF) → TypeEnvB →
    Except String Unit
  | [], _, _ => .ok ()
  | _ :: _, [], _ => .error "value should exists"
  | a :: as, p :: ps, env =>
    match typecheckR a env none with
    | .error msg => .error msg
    | .ok argTy =>
      if typeEq argTy p.2 then typecheckArgsR as ps env
      else .error "parameter type mismatch"
end

/-! ## Structural-subtyping dialect (src/unnamed/part_000) -/

/-- `Type` of the subtyping dialect: adds `Object(props)`. -/
inductive TyS where
  | boolean
  | number
  | func (params : List (String × TyS)) (retType : TyS)
  | object (props : List (String × TyS))

/-- `a.tag === b.tag` on `TyS`. -/
def TyS.tagEq : TyS → TyS → Bool
  | .boolean, .boolean => true
  | .number, .number => true
  | .func _ _, .func _ _ => true
  | .object _, .object _ => true
  | _, _ => false

/-- `Object.fromEntries(props)[k]`: `fromEntries` lets a later entry
overwrite an earlier one of the same name, so the lookup returns the value
of the last entry named `k`. -/
def fromEntriesGet (props : List (String × TyS)) (k : String) : Option TyS :=
  (props.reverse.find? (fun p => p.1 == k)).map (fun p => p.2)

/-- `props.find((p) => p.name === k)`: the first entry named `k`. -/
def findProp (props : List (String × TyS)) (k : String) : Option TyS :=
  (props.find? (fun p => p.1 == k)).map (fun p => p.2)

mutual
/-- `isEqualType` of the subtyping dialect (src/unnamed/part_000, lines
37–65): switch on `b`; `Func` compares parameter counts, parameter types
pairwise by position, and return types; `Object` requires equal property
counts and, for each property of `a`, an entry of the same name in
`Object.fromEntries(b.props)` with an equal type. -/
def isEqualType : TyS → TyS → Bool
  | a, .number => a.tagEq .number
  | a, .boolean => a.tagEq .boolean
  | .func aps aret, .func bps bret =>
    aps.length == bps.length && isEqualTypeParams aps bps && isEqualType aret bret
  | _, .func _ _ => false
  | .object aps, .object bps =>
    aps.length == bps.length && isEqualTypeProps aps bps
  | _, .object _ => false

/-- `a.params.every((p, i) => isEqualType(p.type, ensure(b.params[i]).type))`
under the equal-length guard. -/
def isEqualTypeParams : List (String × TyS) → List (String × TyS) → Bool
  | [], _ => true
  | _ :: _, [] => false
  | p :: ps, q :: qs => isEqualType p.2 q.2 && isEqualTypeParams ps qs

/-- `a.props.every((p) => { const bType = bTypes[p.name]; return bType &&
isEqualType(p.type, bType); })` where `bTypes = Object.fromEntries(b.props)`. -/
def isEqualTypeProps : List (String × TyS) → List (String × TyS) → Bool
  | [], _ => true
  | p :: ps, bps =>
    (match fromEntriesGet bps p.1 with
     | none => false
     | some bty => isEqualType p.2 bty) && isEqualTypeProps ps bps
end

mutual
/-- `isSubtypeOf` of the subtyping dialect (src/unnamed/part_000, lines
67–94): switch on `b`; `Number`/`Boolean` need the same tag; `Func` needs
the same parameter count, contravariant parameter types
(`isSubtypeOf(bp.type, ap.type)` pairwise) and a covariant return type;
`Object` needs, for every property of `b`, that `a.props.find` locates a
same-named property whose type is a subtype of `b`'s. -/
def isSubtypeOf : TyS → TyS → Bool
  | a, .number => a.tagEq .number
  | a, .boolean => a.tagEq .boolean
  | .func aps aret, .func bps bret =>
    aps.length == bps.length && isSubtypeOfParams aps bps && isSubtypeOf aret bret
  | _, .func _ _ => false
  | .object aps, .object bps => isSubtypeOfProps aps bps
  | _, .object _ => false
termination_by a b => sizeOf a + sizeOf b

/-- `a.params.every((ap, i) => isSubtypeOf(ensure(b.params[i]).type, ap.type))`
under the equal-length guard: contravariant. -/
def isSubtypeOfParams : List (String × TyS) → List (String × TyS) → Bool
  | [], _ => true
  | _ :: _, [] => false
  | (_, pt) :: ps, (_, qt) :: qs => isSubtypeOf qt pt && isSubtypeOfParams ps qs
termination_by ps qs => sizeOf ps + sizeOf qs

/-- `b.props.every((bp) => { const ap = a.props.find(...); return ap &&
isSubtypeOf(ap.type, bp.type); })`, recursing over `b`'s properties. -/
def isSubtypeOfProps (aps : List (String × TyS)) : List (String × TyS) → Bool
  | [] => true
  | q :: qs => isSubtypeOfFind aps q && isSubtypeOfProps aps qs
termination_by qs => sizeOf aps + sizeOf qs

/-- `a.props.find((ap) => ap.name === bp.name)` fused with the
`ap && isSubtypeOf(ap.type, bp.type)` test: the first same-named property
decides. -/
def isSubtypeOfFind : List (String × TyS) → String × TyS → Bool
  | [], _ => false
  | (n, ty) :: ps, (qn, qt) =>
    if n == qn then isSubtypeOf ty qt else isSubtypeOfFind ps (qn, qt)
termination_by ps q => sizeOf ps + sizeOf q
end

/-- No string occurs twice. -/
def keysNodup : List String → Bool
  | [] => true
  | k :: ks => !(ks.contains k) && keysNodup ks

mutual
/-- The data-model invariant of the spec (§3): every `Object` type's
property list has no duplicate names, at every nesting level. -/
def wfTy : TyS → Bool
  | .boolean => true
  | .number => true
  | .func ps ret => wfTyList ps && wfTy ret
  | .object ps => keysNodup (ps.map Prod.fst) && wfTyList ps

/-- `wfTy` on every entry of a name/type list. -/
def wfTyList : List (String × TyS) → Bool
  | [] => true
  | p :: ps => wfTy p.2 && wfTyList ps
end

mutual
/-- Modelled from the spec: the subtype relation as §4.1 words it —
`Number`/`Boolean`: same tag; `Func`: contravariant parameters (pairwise,
same count) and covariant return type; `Object`: `a` is a subtype of `b`
iff for every property named in `b`, `a` has a same-named property whose
type is a subtype of `b`'s (`a` may have additional properties). Used only
to compare the source's `isSubtypeOf` against the spec's wording. -/
def subSpec : TyS → TyS → Bool
  | .number, .number => true
  | .boolean, .boolean => true
  | .func aps aret, .func bps bret =>
    aps.length == bps.length && subSpecParams aps bps && subSpec aret bret
  | .object aps, .object bps => subSpecProps aps bps
  | _, _ => false
termination_by a b => sizeOf a + sizeOf b

/-- Pairwise contravariant parameter comparison. -/
def subSpecParams : List (String × TyS) → List (String × TyS) → Bool
  | [], _ => true
  | _ :: _, [] => false
  | (_, pt) :: ps, (_, qt) :: qs => subSpec qt pt && subSpecParams ps qs
termination_by ps qs => sizeOf ps + sizeOf qs

/-- For every property of `b`, some same-named property of `a` has a
subtype type. -/
def subSpecProps (aps : List (String × TyS)) : List (String × TyS) → Bool
  | [] => true
  | q :: qs => subSpecExists aps q && subSpecProps aps qs
termination_by qs => sizeOf aps + sizeOf qs

/-- `a` has a property named like `q` whose type is a subtype of `q`'s. -/
def subSpecExists : List (String × TyS) → String × TyS → Bool
  | [], _ => false
  | (n, ty) :: ps, (qn, qt) => (n == qn && subSpec ty qt) || subSpecExists ps (qn, qt)
termination_by ps q => sizeOf ps + sizeOf q
end

/-- `Term` of the subtyping dialect (`if` is absent; `func` carries no
return-type annotation). -/
inductive TermS where
  | tru
  | fls
  | num (n : Int)
  | add (left right : TermS)
  | var (name : String)
  | func (params : List (String × TyS)) (body : TermS)
  | call (func : TermS) (args : List TermS)
  | seq (body rest : TermS)
  | constT (name : String) (init : TermS) (rest : TermS)
  | objectNew (props : List (String × TermS))
  | objectGet (obj : TermS) (propName : String)

/-- A type environment of the subtyping dialect. -/
abbrev TypeEnvS := List (String × TyS)

mutual
/-- `typecheck` of the subtyping dialect (src/unnamed/part_000, lines
96–180). Note the `call` case compares each argument type with the
parameter type using `isEqualType`, not `isSubtypeOf` (line 151). -/
def typecheckS : TermS → TypeEnvS → Except String TyS
  | .tru, _ => .ok .boolean
  | .fls, _ => .ok .boolean
  | .num _, _ => .ok .number
  | .add l r, env =>
    match typecheckS l env with
    | .error msg => .error msg
    | .ok leftTy =>
      if leftTy.tagEq .number then
        match typecheckS r env with
        | .error msg => .error msg
        | .ok rightTy =>
          if rightTy.tagEq .number then .ok .number
          else .error "number expected on right side of `+`"
      else .error "number expected on left side of `+`"
  | .var n, env =>
    match lookupEnv env n with
    | none => .error ("unknown variable: " ++ n)
    | some ty => .ok ty
  | .func ps body, env =>
    match typecheckS body (insertAll env ps) with
    | .error msg => .error msg
    | .ok retType => .ok (.func ps retType)
  | .call f args, env =>
    match typecheckS f env with
    | .error msg => .error msg
    | .ok funcTy =>
      match funcTy with
      | .func ps retTy =>
        if ps.length == args.length then
          match typecheckArgsS args ps env with
          | .error msg => .error msg
          | .ok _ => .ok retTy
        else .error "wrong number of arguments"
      | _ => .error "function expected"
  | .seq b r, env =>
    match typecheckS b env with
    | .error msg => .error msg
    | .ok _ => typecheckS r env
  | .constT n init rest, env =>
    match typecheckS init env with
    | .error msg => .error msg
    | .ok initTy => typecheckS rest (insertEnv env n initTy)
  | .objectNew props, env =>
    match typecheckPropsS props env with
    | .error msg => .error msg
    | .ok tys => .ok (.object tys)
  | .objectGet obj propName, env =>
    match typecheckS obj env with
    | .error msg => .error msg
    | .ok objTy =>
      match objTy with
      | .object props =>
        match findProp props propName with
        | none => .error ("unknown property: " ++ propName)
        | some ty => .ok ty
      | _ => .error "object expected"

/-- The argument loop of the `call` case, using `isEqualType`. -/
def typecheckArgsS : List TermS → List (String × TyS) → TypeEnvS →
    Except String Unit
  | [], _, _ => .ok ()
  | _ :: _, [], _ => .error "value should exists"
  | a :: as, p :: ps, env =>
    match typecheckS a env with
    | .error msg => .error msg
    | .ok argTy =>
      if isEqualType argTy p.2 then typecheckArgsS as ps env
      else .error "parameter type mismatch"

/-- `t.props.map(({name, term}) => ({name, type: typecheck(term, tyEnv)}))`:
typecheck each property in declared order, keeping names, order and
duplicates. -/
def typecheckPropsS : List (String × TermS) → TypeEnvS →
    Except String (List (String × TyS))
  | [], _ => .ok []
  | p :: ps, env =>
    match typecheckS p.2 env with
    | .error msg => .error msg
    | .ok ty =>
      match typecheckPropsS ps env with
      | .error msg => .error msg
      | .ok tys => .ok ((p.1, ty) :: tys)
end

/-! ## Lemmas about environments -/

theorem lookupEnv_insertEnv_self {α : Type} (env : List (String × α)) (k : String) (v : α) :
    lookupEnv (insertEnv env k v) k = some v := by
  induction env with
  | nil => simp [insertEnv, lookupEnv]
  | cons p rest ih =>
    obtain ⟨k0, v0⟩ := p
    by_cases h : k0 == k
    · simp [insertEnv, h, lookupEnv, List.find?]
    · simp only [insertEnv, h, if_false, Bool.false_eq_true, reduceIte]
      simpa [lookupEnv, List.find?, h] using ih

/-! ## Claim theorems (arithmetic dialect) -/

/-- C9: in the arithmetic dialect, `typecheck2` refines `typecheck`: every
term `typecheck` accepts, `typecheck2` accepts with the same type; and on
`if(number(1), number(1), number(0))` `typecheck` fails `boolean expected`
while `typecheck2` returns `Number`, so the two are not equivalent. -/
theorem c9_typecheck2_refines_typecheck :
    (∀ (t : TermA) (ty : TyA), typecheckA t = .ok ty → typecheck2A t = .ok ty) ∧
    typecheckA (.ifT (.num 1) (.num 1) (.num 0)) = .error "boolean expected" ∧
    typecheck2A (.ifT (.num 1) (.num 1) (.num 0)) = .ok .number := by
  refine ⟨?_, rfl, rfl⟩
  intro t ty h
  cases t with
  | tru => exact h
  | fls => exact h
  | num n => exact h
  | add l r =>
    simp only [typecheckA, typecheck2A] at h ⊢
    exact h
  | ifT c thn els =>
    simp only [typecheckA, typecheck2A] at h ⊢
    split at h
    · simp at h
    · split at h
      · exact h
      · simp at h

/-- Witness for C9: applying the refinement at `true`. -/
theorem c9_typecheck2_refines_typecheck_witness :
    typecheckA TermA.tru = .ok TyA.boolean ∧ typecheck2A TermA.tru = .ok TyA.boolean :=
  ⟨rfl, c9_typecheck2_refines_typecheck.1 TermA.tru TyA.boolean rfl⟩

/-! ## Claim theorems (subtyping dialect call sites) -/

/-- C1: in the structural-subtyping dialect the `call` case compares each
argument with `isEqualType`, not `isSubtypeOf`: on the program
`const f = (obj: {a: number}) => obj.a; f({a: 1, b: true});` `typecheck`
fails with `parameter type mismatch`, even though the argument's type is an
`isSubtypeOf`-subtype of the declared parameter type. -/
theorem c1_sub_call_compares_with_equality :
    typecheckS
        (.constT "f"
          (.func [("obj", .object [("a", .number)])] (.objectGet (.var "obj") "a"))
          (.call (.var "f") [.objectNew [("a", .num 1), ("b", .tru)]])) []
      = .error "parameter type mismatch" ∧
    isSubtypeOf (.object [("a", .number), ("b", .boolean)])
        (.object [("a", .number)]) = true := by
  constructor
  · rfl
  · simp [isSubtypeOf, isSubtypeOfProps, isSubtypeOfFind, TyS.tagEq]

/-! ## Claim theorems (recursive-functions dialect) -/

/-- C7: the `recFunc` rule — the body is checked in the outer environment
extended with the parameters and with `funcName ↦ Func(params, retType)`;
a body type not `typeEq`-equal to the declared return type fails
`return type mismatch`; otherwise the result is the type of `rest` checked
in the outer environment extended with only the `funcName` binding. The
second conjunct shows the self binding is visible in that environment, and
the third is the dialect's own recursive-function test program. -/
theorem c7_recFunc_rule :
    (∀ (f : String) (ps : List (String × TyF)) (rT : TyF) (body rest : TermR)
        (env : TypeEnvB) (parent : Option TermR),
      typecheckR (.recFunc f ps rT body rest) env parent =
        match typecheckR body (recFuncScope env ps f rT) none with
        | .error msg => .error msg
        | .ok bodyTy =>
          if typeEq rT bodyTy then
            typecheckR rest (insertEnv env f (.func ps rT)) none
          else .error "return type mismatch") ∧
    (∀ (env : TypeEnvB) (ps : List (String × TyF)) (f : String) (rT : TyF),
      lookupEnv (insertEnv env f (TyF.func ps rT)) f = some (.func ps rT)) ∧
    typecheckR
        (.recFunc "f" [("x", .number)] .number (.call (.var "f") [.var "x"]) (.var "f"))
        [] none
      = .ok (.func [("x", .number)] .number) := by
  refine ⟨?_, ?_, rfl⟩
  · intro f ps rT body rest env parent
    rfl
  · intro env ps f rT
    exact lookupEnv_insertEnv_self env f (TyF.func ps rT)

/-- C10: when a function's own name collides with a parameter name, the
self binding wins in the body scope: the `func`-under-`const` rule writes
`tyScope[p.name] = selfTy` after spreading the parameters, and the
`recFunc` rule spreads `[funcName]: selfType` last. The first two conjuncts
state the scope lookups in general (even when the name is also a parameter),
the last two run the collision programs: both typecheck only because the
name resolves to the `Func` self type (a `Number`-typed parameter could not
be called). -/
theorem c10_self_binding_wins_over_param :
    (∀ (env : TypeEnvB) (ps : List (String × TyF)) (rT : TyF) (n : String)
        (i r : TermR),
      lookupEnv (funcScope env ps (some rT) (some (.constT n i r))) n
        = some (.func ps rT)) ∧
    (∀ (env : TypeEnvB) (ps : List (String × TyF)) (f : String) (rT : TyF),
      lookupEnv (recFuncScope env ps f rT) f = some (.func ps rT)) ∧
    typecheckR
        (.constT "f" (.func [("f", .number)] (some .number) (.call (.var "f") [.num 1]))
          (.var "f")) [] none
      = .ok (.func [("f", .number)] .number) ∧
    typecheckR
        (.recFunc "f" [("f", .number)] .number (.call (.var "f") [.num 1]) (.var "f"))
        [] none
      = .ok (.func [("f", .number)] .number) := by
  refine ⟨?_, ?_, rfl, rfl⟩
  · intro env ps rT n i r
    exact lookupEnv_insertEnv_self (insertAll env ps) n (TyF.func ps rT)
  · intro env ps f rT
    exact lookupEnv_insertEnv_self (insertAll env ps) f (TyF.func ps rT)

/-- C3 fails as stated: a `func` with declared return-type annotation
`(x: number) => number` and body inferring `(y: number) => number`
typechecks (the two are `typeEq`-equal since parameter names are ignored),
but the returned `Func` type carries the inferred type — with parameter
name `y` — as its `retType` component, not the declared annotation. -/
theorem c3_counterexample_declared_not_returned :
    typecheckR
        (.func [] (some (.func [("x", .number)] .number))
          (.func [("y", .number)] none (.num 1))) [] none
      = .ok (.func [] (.func [("y", .number)] .number)) ∧
    TyF.func [] (.func [("y", .number)] .number)
      ≠ TyF.func [] (.func [("x", .number)] .number) := by
  constructor
  · rfl
  · intro h
    simp at h

/-- C3 amended: for a `func` term that typechecks, the resulting `Func`
type has the declared parameters and the *inferred* body type as its
`retType` component; when an annotation is present the inferred type is
`typeEq`-equal to it (`return type mismatch` otherwise), and when no
annotation is present the inferred type is used as is. -/
theorem c3_func_result_uses_inferred_ret_type :
    (∀ (ps : List (String × TyF)) (rT : TyF) (body : TermR) (env : TypeEnvB)
        (parent : Option TermR) (ty : TyF),
      typecheckR (.func ps (some rT) body) env parent = .ok ty →
      ∃ inferred, typecheckR body (funcScope env ps (some rT) parent) none = .ok inferred ∧
        typeEq rT inferred = true ∧ ty = .func ps inferred) ∧
    (∀ (ps : List (String × TyF)) (body : TermR) (env : TypeEnvB)
        (parent : Option TermR) (ty : TyF),
      typecheckR (.func ps none body) env parent = .ok ty →
      ∃ inferred, typecheckR body (funcScope env ps none parent) none = .ok inferred ∧
        ty = .func ps inferred) := by
  constructor
  · intro ps rT body env parent ty h
    simp only [typecheckR] at h
    split at h
    · simp at h
    · rename_i inferred heq
      split at h
      · exact ⟨inferred, heq, by assumption, by simp_all⟩
      · simp at h
  · intro ps body env parent ty h
    simp only [typecheckR] at h
    split at h
    · simp at h
    · rename_i inferred heq
      exact ⟨inferred, heq, by simp_all⟩

/-- Witness for C3's amended theorem: `(): number => 1`. -/
theorem c3_func_result_uses_inferred_ret_type_witness :
    ∃ inferred, typecheckR (.num 1) (funcScope [] [] (some .number) none) none = .ok inferred ∧
      typeEq .number inferred = true ∧ TyF.func [] .number = .func [] inferred :=
  c3_func_result_uses_inferred_ret_type.1 [] .number (.num 1) [] none
    (.func [] .number) rfl

/-! ## Claim theorems (basic dialect call sites) -/

/-- C8: the `call` case's failure order in src/basic.ts — a non-`Func`
callee fails `function expected` (whatever the arguments are); a `Func`
callee with the wrong argument count fails `wrong number of arguments`
without looking at any argument and without producing a return type; with
the arity right, arguments are checked left to right: a first argument
whose type is not `typeEq`-equal to the first parameter fails
`parameter type mismatch`, and a matching first argument reduces the call
to the call on the remaining arguments and parameters. The last conjunct
runs `((x: number) => x)(1, 2)`. -/
theorem c8_call_failure_order :
    (∀ (ft : TermB) (args : List TermB) (env env1 : TypeEnvB) (ty : TyF),
      typecheckB ft env = (.ok ty, env1) →
      (∀ ps rT, ty ≠ TyF.func ps rT) →
      typecheckB (.call ft args) env = (.error "function expected", env1)) ∧
    (∀ (ft : TermB) (args : List TermB) (env env1 : TypeEnvB)
        (ps : List (String × TyF)) (rT : TyF),
      typecheckB ft env = (.ok (.func ps rT), env1) →
      ps.length ≠ args.length →
      typecheckB (.call ft args) env = (.error "wrong number of arguments", env1)) ∧
    (∀ (ft a : TermB) (as : List TermB) (env env1 env2 : TypeEnvB)
        (p : String × TyF) (ps : List (String × TyF)) (rT aty : TyF),
      typecheckB ft env = (.ok (.func (p :: ps) rT), env1) →
      as.length = ps.length →
      typecheckB a env1 = (.ok aty, env2) →
      typeEq aty p.2 = false →
      typecheckB (.call ft (a :: as)) env = (.error "parameter type mismatch", env2)) ∧
    (∀ (ft ft2 a : TermB) (as : List TermB) (env env0 env1 env2 : TypeEnvB)
        (p : String × TyF) (ps : List (String × TyF)) (rT aty : TyF),
      typecheckB ft env = (.ok (.func (p :: ps) rT), env1) →
      as.length = ps.length →
      typecheckB a env1 = (.ok aty, env2) →
      typeEq aty p.2 = true →
      typecheckB ft2 env0 = (.ok (.func ps rT), env2) →
      typecheckB (.call ft (a :: as)) env = typecheckB (.call ft2 as) env0) ∧
    typecheckB (.call (.func [("x", .number)] (.var "x")) [.num 1, .num 2]) []
      = (.error "wrong number of arguments", []) := by
  refine ⟨?_, ?_, ?_, ?_, rfl⟩
  · intro ft args env env1 ty h1 h2
    cases ty with
    | func ps rT => exact absurd rfl (h2 ps rT)
    | boolean => simp [typecheckB, h1]
    | number => simp [typecheckB, h1]
  · intro ft args env env1 ps rT h1 hlen
    simp [typecheckB, h1, hlen]
  · intro ft a as env env1 env2 p ps rT aty h1 hlen h3 h4
    simp [typecheckB, h1, hlen, typecheckArgsB, h3, h4]
  · intro ft ft2 a as env env0 env1 env2 p ps rT aty h1 hlen h3 h4 h2
    rcases h5 : typecheckArgsB as ps env2 with ⟨res, env3⟩
    cases res with
    | error m =>
      simp [typecheckB, h1, h2, h3, h4, hlen, typecheckArgsB, h5]
    | ok u =>
      simp [typecheckB, h1, h2, h3, h4, hlen, typecheckArgsB, h5]

/-- Witness for C8: its parts applied at `1(…)`, `((x: number) => x)(1, 2)`,
`((x: number) => x)(true)` and `((x: number) => x)(1)`. -/
theorem c8_call_failure_order_witness :
    typecheckB (.call (.num 1) []) [] = (.error "function expected", []) ∧
    typecheckB (.call (.func [("x", .number)] (.var "x")) []) []
      = (.error "wrong number of arguments", []) ∧
    typecheckB (.call (.func [("x", .number)] (.var "x")) [.tru]) []
      = (.error "parameter type mismatch", []) ∧
    typecheckB (.call (.func [("x", .number)] (.var "x")) [.num 1]) []
      = typecheckB (.call (.func [] (.num 0)) []) [] := by
  refine ⟨?_, ?_, ?_, ?_⟩
  · exact c8_call_failure_order.1 (.num 1) [] [] [] .number rfl (fun ps rT h => by cases h)
  · exact c8_call_failure_order.2.1 (.func [("x", .number)] (.var "x")) [] [] []
      [("x", .number)] .number rfl (by decide)
  · exact c8_call_failure_order.2.2.1 (.func [("x", .number)] (.var "x")) .tru [] [] [] []
      ("x", .number) [] .number .boolean rfl rfl rfl rfl
  · exact c8_call_failure_order.2.2.2.1 (.func [("x", .number)] (.var "x")) (.func [] (.num 0))
      (.num 1) [] [] [] [] [] ("x", .number) [] .number .number rfl rfl rfl rfl rfl

/-! ## Environment preservation in the basic dialect -/

theorem envSafeBSeq_cons (t : TermB) (ts : List TermB)
    (h : ∀ nm i, t ≠ TermB.const2 nm i) :
    envSafeBSeq (t :: ts) = (envSafeB t && envSafeBSeq ts) := by
  cases t <;> first | rfl | exact absurd rfl (h _ _)

theorem typecheckSeq2B_cons (t : TermB) (ts : List TermB) (last : Option TyF)
    (env : TypeEnvB) (h : ∀ nm i, t ≠ TermB.const2 nm i) :
    typecheckSeq2B (t :: ts) last env =
      match typecheckB t env with
      | (.error msg, env1) => (.error msg, env1)
      | (.ok ty, env1) => typecheckSeq2B ts (some ty) env1 := by
  cases t <;> first | rfl | exact absurd rfl (h _ _)

theorem typecheckB_env_preserved_aux : ∀ n : Nat,
    (∀ (t : TermB) (env : TypeEnvB), sizeOf t ≤ n → envSafeB t = true →
      (typecheckB t env).2 = env) ∧
    (∀ (args : List TermB) (ps : List (String × TyF)) (env : TypeEnvB),
      sizeOf args ≤ n → envSafeBList args = true →
      (typecheckArgsB args ps env).2 = env) ∧
    (∀ (ts : List TermB) (last : Option TyF) (env : TypeEnvB),
      sizeOf ts ≤ n → envSafeBSeq ts = true →
      (typecheckSeq2B ts last env).2 = env) := by
  intro n
  induction n with
  | zero =>
    refine ⟨?_, ?_, ?_⟩
    · intro t env ht _; cases t <;> simp_arith at ht
    · intro args ps env ht _; cases args <;> simp_arith at ht
    · intro ts last env ht _; cases ts <;> simp_arith at ht
  | succ n ih =>
    obtain ⟨ihT, ihA, ihS⟩ := ih
    refine ⟨?_, ?_, ?_⟩
    · intro t env ht hs
      cases t with
      | tru => rfl
      | fls => rfl
      | num k => rfl
      | var nm =>
        simp only [typecheckB]
        cases h : lookupEnv env nm <;> simp [h]
      | func ps body =>
        simp only [typecheckB]
        rcases h : typecheckB body (insertAll env ps) with ⟨res, e2⟩
        cases res <;> simp [h]
      | ifT c t1 e1 =>
        simp only [envSafeB, Bool.and_eq_true] at hs
        simp_arith at ht
        simp only [typecheckB]
        split
        · rename_i m env1 heq
          have h2 := ihT c env (by omega) hs.1.1
          rw [heq] at h2; exact h2
        · rename_i condTy env1 heq
          have h2 := ihT c env (by omega) hs.1.1
          rw [heq] at h2
          split
          · split
            · rename_i m env2 heq2
              have h3 := ihT t1 env1 (by omega) hs.1.2
              rw [heq2] at h3; exact h3.trans h2
            · rename_i thnTy env2 heq2
              have h3 := ihT t1 env1 (by omega) hs.1.2
              rw [heq2] at h3
              split
              · rename_i m env3 heq3
                have h4 := ihT e1 env2 (by omega) hs.2
                rw [heq3] at h4; exact (h4.trans h3).trans h2
              · rename_i elsTy env3 heq3
                have h4 := ihT e1 env2 (by omega) hs.2
                rw [heq3] at h4
                split <;> exact (h4.trans h3).trans h2
          · exact h2
      | add l r =>
        simp only [envSafeB, Bool.and_eq_true] at hs
        simp_arith at ht
        simp only [typecheckB]
        split
        · rename_i m env1 heq
          have h2 := ihT l env (by omega) hs.1
          rw [heq] at h2; exact h2
        · rename_i leftTy env1 heq
          have h2 := ihT l env (by omega) hs.1
          rw [heq] at h2
          split
          · split
            · rename_i m env2 heq2
              have h3 := ihT r env1 (by omega) hs.2
              rw [heq2] at h3; exact h3.trans h2
            · rename_i rightTy env2 heq2
              have h3 := ihT r env1 (by omega) hs.2
              rw [heq2] at h3
              split <;> exact h3.trans h2
          · exact h2
      | call f args =>
        simp only [envSafeB, Bool.and_eq_true] at hs
        simp_arith at ht
        simp only [typecheckB]
        split
        · rename_i m env1 heq
          have h2 := ihT f env (by omega) hs.1
          rw [heq] at h2; exact h2
        · rename_i funcTy env1 heq
          have h2 := ihT f env (by omega) hs.1
          rw [heq] at h2
          split
          · rename_i ps rT
            split
            · split
              · rename_i m env2 heq2
                have h3 := ihA args ps env1 (by omega) hs.2
                rw [heq2] at h3; exact h3.trans h2
              · rename_i u env2 heq2
                have h3 := ihA args ps env1 (by omega) hs.2
                rw [heq2] at h3; exact h3.trans h2
            · exact h2
          · exact h2
      | seq b r =>
        simp only [envSafeB, Bool.and_eq_true] at hs
        simp_arith at ht
        simp only [typecheckB]
        split
        · rename_i m env1 heq
          have h2 := ihT b env (by omega) hs.1
          rw [heq] at h2; exact h2
        · rename_i ty env1 heq
          have h2 := ihT b env (by omega) hs.1
          rw [heq] at h2
          have h3 := ihT r env1 (by omega) hs.2
          exact h3.trans h2
      | constT nm init rest =>
        simp only [envSafeB] at hs
        simp_arith at ht
        simp only [typecheckB]
        split
        · rename_i m env1 heq
          have h2 := ihT init env (by omega) hs
          rw [heq] at h2; exact h2
        · rename_i initTy env1 heq
          have h2 := ihT init env (by omega) hs
          rw [heq] at h2
          rcases h3 : typecheckB rest (insertEnv env1 nm initTy) with ⟨res2, e3⟩
          cases res2 <;> simp [h3] <;> exact h2
      | seq2 body =>
        simp only [envSafeB] at hs
        simp_arith at ht
        exact ihS body none env (by omega) hs
      | const2 nm init => rfl
    · intro args ps env ht hs
      cases args with
      | nil => rfl
      | cons a as =>
        cases ps with
        | nil => rfl
        | cons p ps2 =>
          simp only [envSafeBList, Bool.and_eq_true] at hs
          simp_arith at ht
          simp only [typecheckArgsB]
          split
          · rename_i m env1 heq
            have h2 := ihT a env (by omega) hs.1
            rw [heq] at h2; exact h2
          · rename_i aty env1 heq
            have h2 := ihT a env (by omega) hs.1
            rw [heq] at h2
            split
            · have h3 := ihA as ps2 env1 (by omega) hs.2
              exact h3.trans h2
            · exact h2
    · intro ts last env ht hs
      cases ts with
      | nil => cases last <;> rfl
      | cons t ts2 =>
        cases t
        case const2 => simp [envSafeBSeq] at hs
        all_goals
          rw [envSafeBSeq_cons _ ts2 (fun nm i h => TermB.noConfusion h),
            Bool.and_eq_true] at hs
        all_goals
          simp_arith at ht
        all_goals
          rw [typecheckSeq2B_cons _ ts2 last env (fun nm i h => TermB.noConfusion h)]
        all_goals
          split
        all_goals
          rename_i v1 env1 heq
        all_goals
          first
          | (have h2 := ihT _ env (by simp_arith; omega) hs.1
             rw [heq] at h2
             exact h2)
          | (have h2 := ihT _ env (by simp_arith; omega) hs.1
             rw [heq] at h2
             have h3 := ihS ts2 (some v1) env1 (by omega) hs.2
             exact h3.trans h2)

/-- C2 fails as stated: `typecheck` of src/basic.ts does mutate the given
environment — checking the `seq2` program `const x = 1` against the empty
environment leaves the binding `x ↦ Number` in the caller's environment
object (`tyEnv[term.name] = initTy`, src/basic.ts line 128). -/
theorem c2_counterexample_seq2_mutates_env :
    (typecheckB (.seq2 [.const2 "x" (.num 1)]) []).2 = [("x", TyF.number)] ∧
    ([("x", TyF.number)] : TypeEnvB) ≠ [] := by
  exact ⟨rfl, by simp⟩

/-- C2 amended: `typecheck` of src/basic.ts never mutates the environment
it is given except through the `seq2` case — for every term in which no
`const2` entry of a `seq2` block can reach the caller's environment object
(`envSafeB`), the environment holds exactly the bindings it held before,
whether the check succeeds or fails; scope extensions (`func` bodies,
`const` rests) are checked in fresh copies. -/
theorem c2_typecheck_preserves_env :
    ∀ (t : TermB) (env : TypeEnvB), envSafeB t = true →
      (typecheckB t env).2 = env := by
  intro t env hs
  exact (typecheckB_env_preserved_aux (sizeOf t)).1 t env (Nat.le_refl _) hs

/-- Witness for C2's amended theorem: a `const` program checked in a
one-binding environment leaves the environment unchanged. -/
theorem c2_typecheck_preserves_env_witness :
    (typecheckB (.constT "x" (.num 1) (.var "x")) [("y", TyF.boolean)]).2
      = [("y", TyF.boolean)] :=
  c2_typecheck_preserves_env (.constT "x" (.num 1) (.var "x"))
    [("y", TyF.boolean)] rfl

/-! ## Properties of property lists with distinct names -/

theorem keysNodup_iff (l : List String) : keysNodup l = true ↔ l.Nodup := by
  induction l with
  | nil => simp [keysNodup]
  | cons k ks ih =>
    simp [keysNodup, List.nodup_cons, ih, List.elem_iff]

theorem sizeOf_snd_lt_of_mem {p : String × TyS} {l : List (String × TyS)}
    (h : p ∈ l) : sizeOf p.2 < sizeOf l := by
  have h1 := List.sizeOf_lt_of_mem h
  obtain ⟨a, b⟩ := p
  show sizeOf b < sizeOf l
  simp_arith at h1
  omega

theorem findProp_mem {ps : List (String × TyS)} {k : String} {v : TyS}
    (h : findProp ps k = some v) : (k, v) ∈ ps := by
  induction ps with
  | nil => simp [findProp] at h
  | cons p rest ih =>
    obtain ⟨n, ty⟩ := p
    by_cases hk : (n == k) = true
    · rw [findProp, @List.find?_cons_of_pos _ (fun p => p.1 == k) (n, ty) rest
        (by simpa using hk)] at h
      have hv : ty = v := by simpa using h
      subst hv
      have hkn : n = k := by simpa using hk
      subst hkn
      exact List.mem_cons_self _ _
    · rw [findProp, @List.find?_cons_of_neg _ (fun p => p.1 == k) (n, ty) rest
        (by simpa using hk)] at h
      exact List.mem_cons_of_mem _ (ih h)

theorem findProp_eq_none {ps : List (String × TyS)} {k : String} :
    findProp ps k = none ↔ k ∉ ps.map Prod.fst := by
  simp only [findProp, Option.map_eq_none', List.find?_eq_none, List.mem_map]
  constructor
  · rintro h ⟨p, hp, hfst⟩
    exact h p hp (by simp [hfst])
  · rintro h p hp hbeq
    exact h ⟨p, hp, by simpa using hbeq⟩

theorem findProp_of_mem {ps : List (String × TyS)} {k : String} {v : TyS}
    (hnd : (ps.map Prod.fst).Nodup) (h : (k, v) ∈ ps) :
    findProp ps k = some v := by
  induction ps with
  | nil => simp at h
  | cons p rest ih =>
    obtain ⟨n, ty⟩ := p
    simp only [List.map_cons, List.nodup_cons] at hnd
    rcases List.mem_cons.mp h with heq | hmem
    · obtain ⟨h1, h2⟩ := Prod.mk.injEq .. ▸ heq
      subst h1
      subst h2
      rw [findProp, @List.find?_cons_of_pos _ (fun p => p.1 == k) (k, v) rest (by simp)]
      rfl
    · have hkmem : k ∈ rest.map Prod.fst := List.mem_map.mpr ⟨(k, v), hmem, rfl⟩
      have hne : n ≠ k := fun hc => hnd.1 (hc ▸ hkmem)
      rw [findProp, @List.find?_cons_of_neg _ (fun p => p.1 == k) (n, ty) rest
        (by simpa using hne)]
      exact ih hnd.2 hmem

theorem fromEntriesGet_eq_findProp {ps : List (String × TyS)} {k : String}
    (hnd : (ps.map Prod.fst).Nodup) :
    fromEntriesGet ps k = findProp ps k := by
  induction ps with
  | nil => rfl
  | cons p rest ih =>
    obtain ⟨n, ty⟩ := p
    simp only [List.map_cons, List.nodup_cons] at hnd
    by_cases hk : n = k
    · subst hk
      have hnone : List.find? (fun p => p.1 == n) rest.reverse = none := by
        rw [List.find?_eq_none]
        intro x hx hbeq
        exact hnd.1 (List.mem_map.mpr ⟨x, List.mem_reverse.mp hx, by simpa using hbeq⟩)
      rw [findProp, @List.find?_cons_of_pos _ (fun p => p.1 == n) (n, ty) rest (by simp)]
      simp [fromEntriesGet, List.find?_append, hnone]
    · rw [findProp, @List.find?_cons_of_neg _ (fun p => p.1 == k) (n, ty) rest
        (by simpa using hk)]
      have hone : List.find? (fun p => p.1 == k) [(n, ty)] = none := by
        rw [List.find?_eq_none]
        intro x hx
        simp only [List.mem_singleton] at hx
        subst hx
        simpa using hk
      simp only [fromEntriesGet, List.reverse_cons, List.find?_append, hone,
        Option.or_none]
      simpa [fromEntriesGet] using ih hnd.2

theorem mem_nodup_unique {ps : List (String × TyS)} {k : String} {x y : TyS}
    (hnd : (ps.map Prod.fst).Nodup) (hx : (k, x) ∈ ps)
    (hy : (k, y) ∈ ps) : x = y := by
  have h1 := findProp_of_mem hnd hx
  have h2 := findProp_of_mem hnd hy
  rw [h1] at h2
  simpa using h2

theorem wfTyList_mem {ps : List (String × TyS)} (h : wfTyList ps = true) :
    ∀ p ∈ ps, wfTy p.2 = true := by
  induction ps with
  | nil => simp
  | cons p rest ih =>
    simp only [wfTyList, Bool.and_eq_true] at h
    intro q hq
    rcases List.mem_cons.mp hq with heq | hmem
    · exact heq ▸ h.1
    · exact ih h.2 q hmem



/-! ## Reflexivity of the subtype relation on well-formed types -/

theorem isSubtypeOfFind_self {ps : List (String × TyS)} {qn : String} {qt : TyS}
    (hnd : (ps.map Prod.fst).Nodup) (hq : (qn, qt) ∈ ps) :
    isSubtypeOfFind ps (qn, qt) = isSubtypeOf qt qt := by
  induction ps with
  | nil => simp at hq
  | cons p rest ih =>
    obtain ⟨n, ty⟩ := p
    simp only [List.map_cons, List.nodup_cons] at hnd
    rcases List.mem_cons.mp hq with heq | hmem
    · obtain ⟨h1, h2⟩ := Prod.mk.injEq .. ▸ heq.symm
      subst h1
      subst h2
      simp [isSubtypeOfFind]
    · have hne : n ≠ qn := fun hc =>
        hnd.1 (hc ▸ List.mem_map.mpr ⟨(qn, qt), hmem, rfl⟩)
      rw [show isSubtypeOfFind ((n, ty) :: rest) (qn, qt)
          = isSubtypeOfFind rest (qn, qt) by simp [isSubtypeOfFind, hne]]
      exact ih hnd.2 hmem

theorem isSubtypeOf_refl_aux : ∀ n : Nat, ∀ t : TyS,
    sizeOf t ≤ n → wfTy t = true → isSubtypeOf t t = true := by
  intro n
  induction n with
  | zero => intro t ht _; cases t <;> simp_arith at ht
  | succ n ih =>
    intro t ht hw
    cases t with
    | boolean => simp [isSubtypeOf, TyS.tagEq]
    | number => simp [isSubtypeOf, TyS.tagEq]
    | func ps ret =>
      simp only [wfTy, Bool.and_eq_true] at hw
      simp_arith at ht
      have hret : isSubtypeOf ret ret = true := ih ret (by omega) hw.2
      have hps : ∀ l : List (String × TyS),
          (∀ p ∈ l, isSubtypeOf p.2 p.2 = true) → isSubtypeOfParams l l = true := by
        intro l h
        induction l with
        | nil => simp [isSubtypeOfParams]
        | cons p l2 ihl =>
          obtain ⟨pn, pt⟩ := p
          simp only [isSubtypeOfParams, Bool.and_eq_true]
          exact ⟨h (pn, pt) (List.mem_cons_self _ _),
            ihl (fun q hq => h q (List.mem_cons_of_mem _ hq))⟩
      have hmem : ∀ p ∈ ps, isSubtypeOf p.2 p.2 = true := by
        intro p hp
        have hsz := sizeOf_snd_lt_of_mem hp
        exact ih p.2 (by omega) (wfTyList_mem hw.1 p hp)
      simp [isSubtypeOf, hps ps hmem, hret]
    | object ps =>
      simp only [wfTy, Bool.and_eq_true] at hw
      simp_arith at ht
      have hnd : (ps.map Prod.fst).Nodup := (keysNodup_iff _).mp hw.1
      rw [show isSubtypeOf (.object ps) (.object ps) = isSubtypeOfProps ps ps by
        simp [isSubtypeOf]]
      have key : ∀ qs : List (String × TyS), (∀ q ∈ qs, q ∈ ps) →
          isSubtypeOfProps ps qs = true := by
        intro qs hqs
        induction qs with
        | nil => simp [isSubtypeOfProps]
        | cons q qs2 ihq =>
          have hq := hqs q (List.mem_cons_self _ _)
          obtain ⟨qn, qt⟩ := q
          simp only [isSubtypeOfProps, Bool.and_eq_true]
          refine ⟨?_, ihq (fun x hx => hqs x (List.mem_cons_of_mem _ hx))⟩
          rw [isSubtypeOfFind_self hnd hq]
          have hsz : sizeOf qt < sizeOf ps := by
            simpa using sizeOf_snd_lt_of_mem hq
          exact ih qt (by omega) (wfTyList_mem hw.2 (qn, qt) hq)
      exact key ps (fun q hq => hq)

/-- C6 fails as stated: `isSubtypeOf` is not reflexive on every `Object`
type — on the duplicate-name type `Object([x: Number, x: Boolean])`
(producible by `typecheck` of an object literal `{x: 1, x: true}`)
`a.props.find` always returns the first `x`, so the second property of `b`
fails and `isSubtypeOf(t, t) = false`. -/
theorem c6_counterexample_not_reflexive_on_duplicates :
    isSubtypeOf (.object [("x", .number), ("x", .boolean)])
        (.object [("x", .number), ("x", .boolean)]) = false := by
  simp [isSubtypeOf, isSubtypeOfProps, isSubtypeOfFind, TyS.tagEq]

/-- C6 amended: `isSubtypeOf` is reflexive for every type whose `Object`
property lists have no duplicate names (the spec's §3 data-model
invariant), including every such `Object` type; width subtyping holds in
one direction only, as the two concrete conjuncts show. -/
theorem c6_isSubtypeOf_reflexive :
    (∀ t : TyS, wfTy t = true → isSubtypeOf t t = true) ∧
    isSubtypeOf (.object [("a", .number), ("b", .number)])
        (.object [("a", .number)]) = true ∧
    isSubtypeOf (.object [("a", .number)])
        (.object [("a", .number), ("b", .number)]) = false := by
  refine ⟨?_, ?_, ?_⟩
  · intro t hw
    exact isSubtypeOf_refl_aux (sizeOf t) t (Nat.le_refl _) hw
  · simp [isSubtypeOf, isSubtypeOfProps, isSubtypeOfFind, TyS.tagEq]
  · simp [isSubtypeOf, isSubtypeOfProps, isSubtypeOfFind, TyS.tagEq]

/-- Witness for C6: reflexivity applied to a concrete nested type. -/
theorem c6_isSubtypeOf_reflexive_witness :
    isSubtypeOf (.func [("x", .object [("a", .number)])] (.object [("b", .boolean)]))
        (.func [("x", .object [("a", .number)])] (.object [("b", .boolean)])) = true :=
  c6_isSubtypeOf_reflexive.1
    (.func [("x", .object [("a", .number)])] (.object [("b", .boolean)])) rfl

/-! ## Reflexivity and symmetry of `isEqualType` on well-formed types -/

theorem isEqualTypeProps_iff {l bps : List (String × TyS)} :
    isEqualTypeProps l bps = true ↔
      ∀ p ∈ l, ∃ v, fromEntriesGet bps p.1 = some v ∧ isEqualType p.2 v = true := by
  induction l with
  | nil => simp [isEqualTypeProps]
  | cons p l2 ih =>
    simp only [isEqualTypeProps, Bool.and_eq_true, ih]
    constructor
    · rintro ⟨h1, h2⟩ q hq
      rcases List.mem_cons.mp hq with heq | hm
      · subst heq
        rcases hf : fromEntriesGet bps q.1 with _ | v
        · rw [hf] at h1; exact absurd h1 (by simp)
        · rw [hf] at h1; exact ⟨v, rfl, h1⟩
      · exact h2 q hm
    · intro h
      constructor
      · obtain ⟨v, hf, hv⟩ := h p (List.mem_cons_self _ _)
        rw [hf]; exact hv
      · exact fun q hq => h q (List.mem_cons_of_mem _ hq)

theorem isEqualType_refl_aux : ∀ n : Nat, ∀ t : TyS,
    sizeOf t ≤ n → wfTy t = true → isEqualType t t = true := by
  intro n
  induction n with
  | zero => intro t ht _; cases t <;> simp_arith at ht
  | succ n ih =>
    intro t ht hw
    cases t with
    | boolean => rfl
    | number => rfl
    | func ps ret =>
      simp only [wfTy, Bool.and_eq_true] at hw
      simp_arith at ht
      have hret : isEqualType ret ret = true := ih ret (by omega) hw.2
      have hps : ∀ l : List (String × TyS),
          (∀ p ∈ l, isEqualType p.2 p.2 = true) → isEqualTypeParams l l = true := by
        intro l h
        induction l with
        | nil => rfl
        | cons p l2 ihl =>
          simp only [isEqualTypeParams, Bool.and_eq_true]
          exact ⟨h p (List.mem_cons_self _ _),
            ihl (fun q hq => h q (List.mem_cons_of_mem _ hq))⟩
      have hmem : ∀ p ∈ ps, isEqualType p.2 p.2 = true := by
        intro p hp
        have hsz := sizeOf_snd_lt_of_mem hp
        exact ih p.2 (by omega) (wfTyList_mem hw.1 p hp)
      simp [isEqualType, hps ps hmem, hret]
    | object ps =>
      simp only [wfTy, Bool.and_eq_true] at hw
      simp_arith at ht
      have hnd : (ps.map Prod.fst).Nodup := (keysNodup_iff _).mp hw.1
      have key : ∀ l : List (String × TyS), (∀ p ∈ l, p ∈ ps) →
          isEqualTypeProps l ps = true := by
        intro l hl
        rw [isEqualTypeProps_iff]
        intro p hp
        have hpm := hl p hp
        refine ⟨p.2, ?_, ?_⟩
        · rw [fromEntriesGet_eq_findProp hnd]
          exact findProp_of_mem hnd (Prod.mk.eta ▸ hpm)
        · have hsz := sizeOf_snd_lt_of_mem hpm
          exact ih p.2 (by omega) (wfTyList_mem hw.2 p hpm)
      simp [isEqualType, key ps (fun q hq => hq)]

theorem eqProps_symm_dir {aps bps : List (String × TyS)}
    (hndA : (aps.map Prod.fst).Nodup) (hndB : (bps.map Prod.fst).Nodup)
    (hlen : aps.length = bps.length)
    (hcomp : ∀ x ∈ aps, ∀ y ∈ bps,
      isEqualType x.2 y.2 = true → isEqualType y.2 x.2 = true)
    (h : isEqualTypeProps aps bps = true) : isEqualTypeProps bps aps = true := by
  rw [isEqualTypeProps_iff] at h ⊢
  have hmemform : ∀ p ∈ aps, ∃ v, (p.1, v) ∈ bps ∧ isEqualType p.2 v = true := by
    intro p hp
    obtain ⟨v, hf, hv⟩ := h p hp
    rw [fromEntriesGet_eq_findProp hndB] at hf
    exact ⟨v, findProp_mem hf, hv⟩
  have hsub : ∀ k ∈ aps.map Prod.fst, k ∈ bps.map Prod.fst := by
    intro k hk
    obtain ⟨p, hp, hpk⟩ := List.mem_map.mp hk
    obtain ⟨v, hv, _⟩ := hmemform p hp
    exact List.mem_map.mpr ⟨(p.1, v), hv, hpk⟩
  have hfin : (bps.map Prod.fst).toFinset = (aps.map Prod.fst).toFinset := by
    refine (Finset.eq_of_subset_of_card_le ?_ ?_).symm
    · intro k hk
      rw [List.mem_toFinset] at hk ⊢
      exact hsub k hk
    · rw [List.toFinset_card_of_nodup hndA, List.toFinset_card_of_nodup hndB]
      simp [hlen]
  intro q hq
  have hqk : q.1 ∈ aps.map Prod.fst := by
    have h0 : q.1 ∈ (bps.map Prod.fst).toFinset :=
      List.mem_toFinset.mpr (List.mem_map.mpr ⟨q, hq, rfl⟩)
    rw [hfin] at h0
    exact List.mem_toFinset.mp h0
  obtain ⟨p, hp, hpk⟩ := List.mem_map.mp hqk
  obtain ⟨v, hvmem, hv⟩ := hmemform p hp
  have hveq : v = q.2 :=
    mem_nodup_unique hndB (hpk ▸ hvmem) (Prod.mk.eta ▸ hq)
  refine ⟨p.2, ?_, hcomp p hp q hq (hveq ▸ hv)⟩
  rw [fromEntriesGet_eq_findProp hndA]
  exact hpk ▸ findProp_of_mem hndA (Prod.mk.eta ▸ hp)

theorem isEqualType_symm_aux : ∀ n : Nat, ∀ a b : TyS,
    sizeOf a + sizeOf b ≤ n → wfTy a = true → wfTy b = true →
    isEqualType a b = isEqualType b a := by
  intro n
  induction n with
  | zero => intro a b ht _ _; cases a <;> simp_arith at ht
  | succ n ih =>
    intro a b ht hwa hwb
    cases a with
    | boolean => cases b <;> rfl
    | number => cases b <;> rfl
    | func aps aret =>
      cases b with
      | boolean => rfl
      | number => rfl
      | object bps => rfl
      | func bps bret =>
        simp only [wfTy, Bool.and_eq_true] at hwa hwb
        simp_arith at ht
        by_cases hlen : aps.length = bps.length
        · have h1 : (aps.length == bps.length) = true := by simpa using hlen
          have h2 : (bps.length == aps.length) = true := by simpa using hlen.symm
          have hret : isEqualType aret bret = isEqualType bret aret :=
            ih aret bret (by omega) hwa.2 hwb.2
          have hcomp : ∀ x ∈ aps, ∀ y ∈ bps,
              isEqualType x.2 y.2 = isEqualType y.2 x.2 := by
            intro x hx y hy
            have hsx := sizeOf_snd_lt_of_mem hx
            have hsy := sizeOf_snd_lt_of_mem hy
            exact ih x.2 y.2 (by omega) (wfTyList_mem hwa.1 x hx)
              (wfTyList_mem hwb.1 y hy)
          have hps : ∀ l1 l2 : List (String × TyS),
              (∀ x ∈ l1, ∀ y ∈ l2, isEqualType x.2 y.2 = isEqualType y.2 x.2) →
              l1.length = l2.length →
              isEqualTypeParams l1 l2 = isEqualTypeParams l2 l1 := by
            intro l1
            induction l1 with
            | nil =>
              intro l2 _ hl
              cases l2 with
              | nil => rfl
              | cons q qs => simp at hl
            | cons p ps ihl =>
              intro l2 hc hl
              cases l2 with
              | nil => simp at hl
              | cons q qs =>
                simp only [isEqualTypeParams]
                rw [hc p (List.mem_cons_self _ _) q (List.mem_cons_self _ _),
                  ihl qs (fun x hx y hy =>
                    hc x (List.mem_cons_of_mem _ hx) y (List.mem_cons_of_mem _ hy))
                    (by simpa using hl)]
          show (aps.length == bps.length && isEqualTypeParams aps bps
              && isEqualType aret bret)
            = (bps.length == aps.length && isEqualTypeParams bps aps
              && isEqualType bret aret)
          rw [h1, h2, hps aps bps hcomp hlen, hret]
        · have h1 : (aps.length == bps.length) = false := by simpa using hlen
          have h2 : (bps.length == aps.length) = false := by
            simp only [beq_eq_false_iff_ne, ne_eq]
            omega
          show (aps.length == bps.length && isEqualTypeParams aps bps
              && isEqualType aret bret)
            = (bps.length == aps.length && isEqualTypeParams bps aps
              && isEqualType bret aret)
          rw [h1, h2]
          rfl
    | object aps =>
      cases b with
      | boolean => rfl
      | number => rfl
      | func bps bret => rfl
      | object bps =>
        simp only [wfTy, Bool.and_eq_true] at hwa hwb
        simp_arith at ht
        have hndA := (keysNodup_iff _).mp hwa.1
        have hndB := (keysNodup_iff _).mp hwb.1
        by_cases hlen : aps.length = bps.length
        · have h1 : (aps.length == bps.length) = true := by simpa using hlen
          have h2 : (bps.length == aps.length) = true := by simpa using hlen.symm
          have hcomp : ∀ x ∈ aps, ∀ y ∈ bps,
              isEqualType x.2 y.2 = isEqualType y.2 x.2 := by
            intro x hx y hy
            have hsx := sizeOf_snd_lt_of_mem hx
            have hsy := sizeOf_snd_lt_of_mem hy
            exact ih x.2 y.2 (by omega) (wfTyList_mem hwa.2 x hx)
              (wfTyList_mem hwb.2 y hy)
          have hdir1 : isEqualTypeProps aps bps = true →
              isEqualTypeProps bps aps = true :=
            eqProps_symm_dir hndA hndB hlen
              (fun x hx y hy h => (hcomp x hx y hy) ▸ h)
          have hdir2 : isEqualTypeProps bps aps = true →
              isEqualTypeProps aps bps = true :=
            eqProps_symm_dir hndB hndA hlen.symm
              (fun y hy x hx h => (hcomp x hx y hy).symm ▸ h)
          show (aps.length == bps.length && isEqualTypeProps aps bps)
            = (bps.length == aps.length && isEqualTypeProps bps aps)
          rw [h1, h2]
          simp only [Bool.true_and]
          cases hab : isEqualTypeProps aps bps with
          | true => exact (hdir1 hab).symm
          | false =>
            cases hba : isEqualTypeProps bps aps with
            | true => exact absurd (hdir2 hba) (by simp [hab])
            | false => rfl
        · have h1 : (aps.length == bps.length) = false := by simpa using hlen
          have h2 : (bps.length == aps.length) = false := by
            simp only [beq_eq_false_iff_ne, ne_eq]
            omega
          show (aps.length == bps.length && isEqualTypeProps aps bps)
            = (bps.length == aps.length && isEqualTypeProps bps aps)
          rw [h1, h2]
          rfl

/-- C4 fails as stated: `isEqualType` is not reflexive on every type — on
the duplicate-name type `Object([a: Number, a: Boolean])` (producible by
`typecheck` of the object literal `{a: 1, a: true}`),
`Object.fromEntries(b.props)` keeps only the last `a`, so the first
property of `a` compares `Number` against `Boolean` and
`isEqualType(t, t) = false`. -/
theorem c4_counterexample_not_reflexive_on_duplicates :
    isEqualType (.object [("a", .number), ("a", .boolean)])
        (.object [("a", .number), ("a", .boolean)]) = false := by
  rfl

/-- C4 amended: on types whose `Object` property lists have no duplicate
names (the spec's §3 data-model invariant), `isEqualType` is reflexive and
symmetric; it is insensitive to function-parameter names and to the order
of object properties, as the two concrete conjuncts show. -/
theorem c4_isEqualType_refl_symm_order_insensitive :
    (∀ t : TyS, wfTy t = true → isEqualType t t = true) ∧
    (∀ a b : TyS, wfTy a = true → wfTy b = true →
      isEqualType a b = isEqualType b a) ∧
    isEqualType (.object [("a", .number), ("b", .boolean)])
        (.object [("b", .boolean), ("a", .number)]) = true ∧
    isEqualType (.func [("x", .boolean)] .number)
        (.func [("y", .boolean)] .number) = true := by
  refine ⟨?_, ?_, rfl, rfl⟩
  · intro t hw
    exact isEqualType_refl_aux (sizeOf t) t (Nat.le_refl _) hw
  · intro a b hwa hwb
    exact isEqualType_symm_aux (sizeOf a + sizeOf b) a b (Nat.le_refl _) hwa hwb

/-- Witness for C4: reflexivity and symmetry applied to concrete types. -/
theorem c4_isEqualType_refl_symm_order_insensitive_witness :
    isEqualType (.object [("a", .number), ("b", .boolean)])
        (.object [("a", .number), ("b", .boolean)]) = true ∧
    isEqualType (.object [("a", .number)]) (.func [] .number)
      = isEqualType (.func [] .number) (.object [("a", .number)]) :=
  ⟨c4_isEqualType_refl_symm_order_insensitive.1
      (.object [("a", .number), ("b", .boolean)]) rfl,
    c4_isEqualType_refl_symm_order_insensitive.2.1
      (.object [("a", .number)]) (.func [] .number) rfl rfl⟩

/-! ## `isSubtypeOf` against the spec's wording -/

theorem subSpecExists_eq_false_of_not_mem {ps : List (String × TyS)}
    {qn : String} {qt : TyS} (h : qn ∉ ps.map Prod.fst) :
    subSpecExists ps (qn, qt) = false := by
  induction ps with
  | nil => simp [subSpecExists]
  | cons p rest ih =>
    obtain ⟨n, ty⟩ := p
    simp only [List.map_cons, List.mem_cons, not_or] at h
    have hne : n ≠ qn := fun hc => h.1 hc.symm
    simp [subSpecExists, hne, ih h.2]

theorem isSubtypeOfFind_eq_subSpecExists {ps : List (String × TyS)}
    {qn : String} {qt : TyS} (hnd : (ps.map Prod.fst).Nodup)
    (hcomp : ∀ p ∈ ps, isSubtypeOf p.2 qt = subSpec p.2 qt) :
    isSubtypeOfFind ps (qn, qt) = subSpecExists ps (qn, qt) := by
  induction ps with
  | nil => simp [isSubtypeOfFind, subSpecExists]
  | cons p rest ih =>
    obtain ⟨n, ty⟩ := p
    simp only [List.map_cons, List.nodup_cons] at hnd
    by_cases hq : n = qn
    · subst hq
      have hrest : subSpecExists rest (n, qt) = false :=
        subSpecExists_eq_false_of_not_mem hnd.1
      have hhead := hcomp (n, ty) (List.mem_cons_self _ _)
      simp [isSubtypeOfFind, subSpecExists, hrest, hhead]
    · simp only [isSubtypeOfFind, subSpecExists, hq,
        (by simpa using hq : (n == qn) = false)]
      simp only [Bool.false_and, Bool.false_or, if_false, Bool.false_eq_true,
        reduceIte]
      exact ih hnd.2 (fun p hp => hcomp p (List.mem_cons_of_mem _ hp))

theorem isSubtypeOf_eq_subSpec_aux : ∀ n : Nat, ∀ a b : TyS,
    sizeOf a + sizeOf b ≤ n → wfTy a = true → wfTy b = true →
    isSubtypeOf a b = subSpec a b := by
  intro n
  induction n with
  | zero => intro a b ht _ _; cases a <;> simp_arith at ht
  | succ n ih =>
    intro a b ht hwa hwb
    cases a with
    | boolean => cases b <;> simp [isSubtypeOf, subSpec, TyS.tagEq]
    | number => cases b <;> simp [isSubtypeOf, subSpec, TyS.tagEq]
    | func aps aret =>
      cases b with
      | boolean => simp [isSubtypeOf, subSpec, TyS.tagEq]
      | number => simp [isSubtypeOf, subSpec, TyS.tagEq]
      | object bps => simp [isSubtypeOf, subSpec]
      | func bps bret =>
        simp only [wfTy, Bool.and_eq_true] at hwa hwb
        simp_arith at ht
        have hret : isSubtypeOf aret bret = subSpec aret bret :=
          ih aret bret (by omega) hwa.2 hwb.2
        have hcomp : ∀ x ∈ aps, ∀ y ∈ bps,
            isSubtypeOf y.2 x.2 = subSpec y.2 x.2 := by
          intro x hx y hy
          have hsx := sizeOf_snd_lt_of_mem hx
          have hsy := sizeOf_snd_lt_of_mem hy
          exact ih y.2 x.2 (by omega) (wfTyList_mem hwb.1 y hy)
            (wfTyList_mem hwa.1 x hx)
        have hps : ∀ l1 l2 : List (String × TyS),
            (∀ x ∈ l1, ∀ y ∈ l2, isSubtypeOf y.2 x.2 = subSpec y.2 x.2) →
            isSubtypeOfParams l1 l2 = subSpecParams l1 l2 := by
          intro l1
          induction l1 with
          | nil =>
            intro l2 _
            simp [isSubtypeOfParams, subSpecParams]
          | cons p ps2 ihl =>
            intro l2 hc
            cases l2 with
            | nil => simp [isSubtypeOfParams, subSpecParams]
            | cons q qs =>
              obtain ⟨pn, pt⟩ := p
              obtain ⟨qn, qt⟩ := q
              simp only [isSubtypeOfParams, subSpecParams]
              rw [hc (pn, pt) (List.mem_cons_self _ _) (qn, qt) (List.mem_cons_self _ _),
                ihl qs (fun x hx y hy =>
                  hc x (List.mem_cons_of_mem _ hx) y (List.mem_cons_of_mem _ hy))]
        simp only [isSubtypeOf, subSpec]
        rw [hps aps bps hcomp, hret]
    | object aps =>
      cases b with
      | boolean => simp [isSubtypeOf, subSpec, TyS.tagEq]
      | number => simp [isSubtypeOf, subSpec, TyS.tagEq]
      | func bps bret => simp [isSubtypeOf, subSpec]
      | object bps =>
        simp only [wfTy, Bool.and_eq_true] at hwa hwb
        simp_arith at ht
        have hndA := (keysNodup_iff _).mp hwa.1
        have key : ∀ qs : List (String × TyS), (∀ q ∈ qs, q ∈ bps) →
            isSubtypeOfProps aps qs = subSpecProps aps qs := by
          intro qs hqs
          induction qs with
          | nil => simp [isSubtypeOfProps, subSpecProps]
          | cons q qs2 ihq =>
            obtain ⟨qn, qt⟩ := q
            have hq := hqs _ (List.mem_cons_self _ _)
            have hqt : sizeOf qt < sizeOf bps := by
              simpa using sizeOf_snd_lt_of_mem hq
            have hcomp : ∀ p ∈ aps, isSubtypeOf p.2 qt = subSpec p.2 qt := by
              intro p hp
              have hsp := sizeOf_snd_lt_of_mem hp
              exact ih p.2 qt (by omega) (wfTyList_mem hwa.2 p hp)
                (wfTyList_mem hwb.2 (qn, qt) hq)
            simp only [isSubtypeOfProps, subSpecProps]
            rw [isSubtypeOfFind_eq_subSpecExists hndA hcomp,
              ihq (fun x hx => hqs x (List.mem_cons_of_mem _ hx))]
        simp only [isSubtypeOf, subSpec]
        exact key bps (fun q hq => hq)

/-- C5 fails as stated: on the duplicate-name type
`Object([x: Number, x: Boolean])`, the spec's rule "`a` has a same-named
property whose type is a subtype of `b`'s" holds against
`Object([x: Boolean])` (the second `x` qualifies), but `isSubtypeOf`
returns `false` because `a.props.find` commits to the first `x`. -/
theorem c5_counterexample_find_vs_exists :
    isSubtypeOf (.object [("x", .number), ("x", .boolean)])
        (.object [("x", .boolean)]) = false ∧
    subSpec (.object [("x", .number), ("x", .boolean)])
        (.object [("x", .boolean)]) = true := by
  constructor
  · simp [isSubtypeOf, isSubtypeOfProps, isSubtypeOfFind, TyS.tagEq]
  · simp [subSpec, subSpecProps, subSpecExists]

/-- C5 amended: on types whose `Object` property lists have no duplicate
names (the spec's §3 data-model invariant), `isSubtypeOf` coincides with
the spec's standard structural rule `subSpec` — same-tag base types,
contravariant parameters with equal count and covariant return type for
`Func`, and width-permissive covariant `Object` comparison in which every
property named in `b` must have a same-named `a`-property of subtype type. -/
theorem c5_isSubtypeOf_matches_spec_rule :
    ∀ a b : TyS, wfTy a = true → wfTy b = true →
      isSubtypeOf a b = subSpec a b := by
  intro a b hwa hwb
  exact isSubtypeOf_eq_subSpec_aux (sizeOf a + sizeOf b) a b (Nat.le_refl _) hwa hwb

/-- Witness for C5: the relation agrees with the spec's rule on a concrete
contravariance example. -/
theorem c5_isSubtypeOf_matches_spec_rule_witness :
    isSubtypeOf (.func [("x", .object [("a", .number)])] .number)
        (.func [("x", .object [("a", .number), ("b", .number)])] .number)
      = subSpec (.func [("x", .object [("a", .number)])] .number)
        (.func [("x", .object [("a", .number), ("b", .number)])] .number) :=
  c5_isSubtypeOf_matches_spec_rule
    (.func [("x", .object [("a", .number)])] .number)
    (.func [("x", .object [("a", .number), ("b", .number)])] .number) rfl rfl
